import Mathlib

/-!
Verification of the CT-e ingestion/aggregation core of `streamlit_app.py`.

The Python source is shallowly embedded: each relevant function of the
source file is translated into an executable Lean definition.  Strings are
modelled at the level of their character lists; character classes of the
Python regular expressions (`\w`, `\d`, `[A-Z]`, `[A-Z0-9]`) are modelled
at the ASCII level, which is exact on all inputs appearing in the claims.
Python `float` values are modelled as exact decimal rationals tagged with
the special `inf`/`nan` outcomes; no arithmetic is ever performed on them
in the embedded code paths, they are only parsed, stored and compared.
-/

namespace CteApp

/-! ## Character classes of the plate regular expression

The source compiles `re.compile(r"\b[A-Z]{3}\d{1,4}[A-Z0-9]{0,3}\b")` and
uses `findall` on the observation text (lines 192-197).
-/

/-- Word character for the `\b` boundary of the Python regex (ASCII part of `\w`). -/
def isWordChar (c : Char) : Bool := c.isAlphanum || c = '_'

/-- Character class `[A-Z0-9]` of the plate pattern. -/
def isAlnumU (c : Char) : Bool := c.isUpper || c.isDigit

/-- A `\b` word boundary holds right before `l` when the previous character is a
word character: `l` must be exhausted or start with a non-word character. -/
def wordBreak : List Char → Bool
  | [] => true
  | c :: _ => !(isWordChar c)

/-! ## The backtracking matcher for `[A-Z]{3}\d{1,4}[A-Z0-9]{0,3}\b`

`kLoop` models the greedy `[A-Z0-9]{0,3}` quantifier giving characters back
one at a time until the final `\b` holds; `dLoop` models the greedy
`\d{1,4}` quantifier doing the same around it.  Both receive the maximal
number of characters the quantifier may consume (run length capped by the
quantifier bound), exactly like the backtracking regex engine.
-/

/-- Backtracking loop of the `[A-Z0-9]{0,3}` quantifier: try consuming `k`
characters, largest first, until the trailing `\b` holds. -/
def kLoop (sd : List Char) : Nat → Option Nat
  | 0 => if wordBreak sd then some 0 else none
  | k + 1 => if wordBreak (sd.drop (k + 1)) then some (k + 1) else kLoop sd k

/-- Backtracking loop of the `\d{1,4}` quantifier (at least one digit): for each
digit count `d`, largest first, run the `[A-Z0-9]{0,3}` loop on the rest. -/
def dLoop (s3 : List Char) : Nat → Option (Nat × Nat)
  | 0 => none
  | d + 1 =>
    match kLoop (s3.drop (d + 1)) (min 3 (((s3.drop (d + 1)).takeWhile isAlnumU).length)) with
    | some k => some (d + 1, k)
    | none => dLoop s3 d

/-- Attempt the body `[A-Z]{3}\d{1,4}[A-Z0-9]{0,3}\b` at the head of `s`.
On success returns the matched token and the unconsumed suffix. -/
def tryBody (s : List Char) : Option (List Char × List Char) :=
  match s with
  | a :: b :: c :: tl =>
    if a.isUpper && b.isUpper && c.isUpper then
      match dLoop tl (min 4 ((tl.takeWhile Char.isDigit).length)) with
      | some (d, k) => some (a :: b :: c :: tl.take (d + k), tl.drop (d + k))
      | none => none
    else none
  | _ => none

/-- Fuelled left-to-right scan of `re.findall`: at each position, if the
leading `\b` holds (`p`, the word-character status of the previous character,
is `false`) attempt the body; on success emit the token and resume after it,
otherwise advance one character.  The fuel only makes the recursion
structural; `scan` below always supplies enough. -/
def scanF : Nat → Bool → List Char → List (List Char)
  | 0, _, _ => []
  | _ + 1, _, [] => []
  | fuel + 1, p, c :: cs =>
    if p then scanF fuel (isWordChar c) cs
    else
      match tryBody (c :: cs) with
      | some (tok, rest) => tok :: scanF fuel true rest
      | none => scanF fuel (isWordChar c) cs

/-- `re.findall` of the plate pattern over `l`; `p` is whether the character
just before `l` is a word character (`false` at the start of the string). -/
def scan (p : Bool) (l : List Char) : List (List Char) := scanF l.length p l

/-- All plate tokens found in an observation string, in scan order,
duplicates kept (source line 195: `padrao.findall(inf_obs)`). -/
def findPlateTokens (s : String) : List (List Char) := scan false s.data

/-- `" ".join(...)` of the source (line 197), at the character-list level. -/
def joinTok : List (List Char) → List Char
  | [] => []
  | [t] => t
  | t :: u :: ts => t ++ ' ' :: joinTok (u :: ts)

/-- The `placas` string computed by the source for a present observation text:
the found tokens joined with single spaces. -/
def placasStr (s : String) : String := ⟨joinTok (findPlateTokens s)⟩

/-! ## Python `float()` (lines 199-206)

`float(text)` strips whitespace, accepts an optional sign, the special words
`inf`/`infinity`/`nan` (case-insensitively), or a decimal literal with
optional fractional part and exponent, with single underscores allowed
between digits.  Finite values are modelled as exact rationals. -/

/-- Unicode whitespace stripped by Python's `float()` and `str.strip()`. -/
def pyWs (c : Char) : Bool :=
  let n := c.toNat
  (9 ≤ n && n ≤ 13) || n = 32 || (28 ≤ n && n ≤ 31) || n = 133 || n = 160 ||
    n = 5760 || (8192 ≤ n && n ≤ 8202) || n = 8232 || n = 8233 || n = 8239 ||
    n = 8287 || n = 12288

/-- Numeric value of an ASCII digit. -/
def digitVal (c : Char) : Nat := c.toNat - 48

/-- Fuelled reading of `digit ( '_' digit )*` (PEP 515: an underscore is
consumed only between two digits, so a group may not start at one); the fuel
only makes the recursion structural, `digitsU` below always supplies enough. -/
def digitsUF : Nat → List Char → Nat → Nat → Nat × Nat × List Char
  | 0, l, acc, n => (acc, n, l)
  | _ + 1, [], acc, n => (acc, n, [])
  | fuel + 1, c :: rest, acc, n =>
    if c.isDigit then digitsUF fuel rest (acc * 10 + digitVal c) (n + 1)
    else if c = '_' ∧ 0 < n then
      match rest with
      | d :: rest' =>
        if d.isDigit then digitsUF fuel rest' (acc * 10 + digitVal d) (n + 1)
        else (acc, n, c :: rest)
      | [] => (acc, n, [c])
    else (acc, n, c :: rest)

/-- Consume `digit ( '_' digit )*` greedily (PEP 515 underscores), returning
the accumulated value, the number of digits read and the unread suffix. -/
def digitsU (l : List Char) (acc n : Nat) : Nat × Nat × List Char :=
  digitsUF l.length l acc n

/-- Result of a successful Python `float()` call.  A finite value is recorded
exactly as read, as the integer `num` and the power-of-ten denominator `den`
of the decimal literal (so `float("150.5")` is `finite 1505 10`).  No claim
performs arithmetic on these values or compares values parsed from distinct
texts; they are only produced, stored and passed through unchanged, for
which this exact representation is faithful. -/
inductive PyFloat where
  | finite : Int → Nat → PyFloat
  | infty : Bool → PyFloat
  | nan : PyFloat
deriving DecidableEq, Repr

/-- The finite value `±(ip.fp) * 10^e` with `nf` fractional digits. -/
def mkVal (neg : Bool) (ip fp nf : Nat) (e : Int) : PyFloat :=
  let mant : Int := (if neg then -1 else 1) * ((ip * 10 ^ nf + fp : Nat) : Int)
  let ex : Int := e - (nf : Int)
  if 0 ≤ ex then .finite (mant * ((10 ^ ex.toNat : Nat) : Int)) 1
  else .finite mant (10 ^ (-ex).toNat)

/-- Python `float(s)`: `none` models the `ValueError` caught by the source's
local `try`/`except` blocks. -/
def pyFloat? (s : String) : Option PyFloat :=
  let l0 := (((s.data.dropWhile pyWs).reverse.dropWhile pyWs).reverse)
  let sgn : Bool × List Char :=
    match l0 with
    | '+' :: r => (false, r)
    | '-' :: r => (true, r)
    | r => (false, r)
  let neg := sgn.1
  let l := sgn.2
  let low := l.map Char.toLower
  if low = "inf".data || low = "infinity".data then some (.infty neg)
  else if low = "nan".data then some .nan
  else
    let ipr := digitsU l 0 0
    let ip := ipr.1
    let ni := ipr.2.1
    let l1 := ipr.2.2
    let fpr : Nat × Nat × List Char :=
      match l1 with
      | '.' :: r => digitsU r 0 0
      | _ => (0, 0, l1)
    let fp := fpr.1
    let nf := fpr.2.1
    let l2 := fpr.2.2
    if ni + nf = 0 then none
    else
      match l2 with
      | [] => some (mkVal neg ip fp nf 0)
      | e :: r3 =>
        if e = 'e' || e = 'E' then
          let esgn : Bool × List Char :=
            match r3 with
            | '+' :: r => (false, r)
            | '-' :: r => (true, r)
            | r => (false, r)
          let epr := digitsU esgn.2 0 0
          if epr.2.1 = 0 then none
          else
            match epr.2.2 with
            | [] => some (mkVal neg ip fp nf (if esgn.1 then -(epr.1 : Int) else (epr.1 : Int)))
            | _ => none
        else none

/-! ## `datetime.strptime(s[:10], "%Y-%m-%d").date()` (lines 183-189)

CPython's `_strptime` compiles `%Y-%m-%d` to the regular expression
`(\d\d\d\d)-(1[0-2]|0[1-9]|[1-9])-(3[01]|[12]\d|0[1-9]|[1-9]| [1-9])`
(the last day alternative accepts a space-padded day), matches it at the
start of the string, raises if anything is left unconsumed, and then
validates the day against the month length (and the year against
`MINYEAR = 1`) when building the `datetime`. -/

structure Date where
  year : Nat
  month : Nat
  day : Nat
deriving DecidableEq, Repr

/-- Day alternation `3[01]|[12]\d|0[1-9]|[1-9]| [1-9]`, alternatives in regex
order; the final alternative is CPython's space-padded day. -/
def dayAlts : List Char → Option (Nat × List Char)
  | c1 :: c2 :: rest =>
    if c1 = '3' && (c2 = '0' || c2 = '1') then some (30 + digitVal c2, rest)
    else if (c1 = '1' || c1 = '2') && c2.isDigit then some (10 * digitVal c1 + digitVal c2, rest)
    else if c1 = '0' && (c2.isDigit && c2 ≠ '0') then some (digitVal c2, rest)
    else if c1.isDigit && c1 ≠ '0' then some (digitVal c1, c2 :: rest)
    else if c1 = ' ' && (c2.isDigit && c2 ≠ '0') then some (digitVal c2, rest)
    else none
  | [c1] => if c1.isDigit && c1 ≠ '0' then some (digitVal c1, []) else none
  | [] => none

/-- After a month candidate: require the literal `-`, then the day. -/
def afterMonth (m : Nat) : List Char → Option (Nat × Nat × List Char)
  | '-' :: r => (dayAlts r).map fun dr => (m, dr.1, dr.2)
  | _ => none

/-- Month alternation `1[0-2]|0[1-9]|[1-9]` with regex backtracking: a month
alternative is kept only if `-` and a day can follow it. -/
def monthDay (l : List Char) : Option (Nat × Nat × List Char) :=
  (match l with
   | '1' :: c2 :: r =>
     if c2 = '0' || c2 = '1' || c2 = '2' then afterMonth (10 + digitVal c2) r else none
   | _ => none).orElse fun _ =>
  (match l with
   | '0' :: c2 :: r => if c2.isDigit && c2 ≠ '0' then afterMonth (digitVal c2) r else none
   | _ => none).orElse fun _ =>
  (match l with
   | c1 :: r => if c1.isDigit && c1 ≠ '0' then afterMonth (digitVal c1) r else none
   | _ => none)

def isLeap (y : Nat) : Bool := y % 4 = 0 && (y % 100 ≠ 0 || y % 400 = 0)

def daysInMonth (y m : Nat) : Nat :=
  if m = 2 then (if isLeap y then 29 else 28)
  else if m = 4 || m = 6 || m = 9 || m = 11 then 30
  else 31

/-- `datetime.strptime(s, "%Y-%m-%d").date()`: `none` models the raised
`ValueError` (bad shape, unconverted trailing data, or invalid date). -/
def parseDate (s : String) : Option Date :=
  match s.data with
  | y1 :: y2 :: y3 :: y4 :: '-' :: rest =>
    if y1.isDigit && y2.isDigit && y3.isDigit && y4.isDigit then
      match monthDay rest with
      | some (m, d, []) =>
        let y := 1000 * digitVal y1 + 100 * digitVal y2 + 10 * digitVal y3 + digitVal y4
        if 1 ≤ y && d ≤ daysInMonth y m then some ⟨y, m, d⟩ else none
      | _ => none
    else none
  | _ => none

/-- `date.strftime("%B").capitalize()` in the C locale: the English month
name (already capitalized). -/
def mesName : Nat → String
  | 1 => "January"
  | 2 => "February"
  | 3 => "March"
  | 4 => "April"
  | 5 => "May"
  | 6 => "June"
  | 7 => "July"
  | 8 => "August"
  | 9 => "September"
  | 10 => "October"
  | 11 => "November"
  | 12 => "December"
  | _ => ""

/-! ## Field extraction and normalization (`extrair_dados_cte`, lines 166-224) -/

/-- Python truthiness of an optional string (`findtext` returns `None` for a
missing node, and may return `""`). -/
def truthy : Option String → Bool
  | none => false
  | some s => !(decide (s = ""))

/-- Python `str.strip()` (both ends, Unicode whitespace). -/
def pyStrip (s : String) : String :=
  ⟨((s.data.dropWhile pyWs).reverse.dropWhile pyWs).reverse⟩

/-- Python `str.upper()` at the ASCII level. -/
def pyUpper (s : String) : String := ⟨s.data.map Char.toUpper⟩

/-- The ten `findtext` results of one parsed document: `none` is a missing
node, `some` the node's text (source lines 172-181). -/
structure ExtractedFields where
  nCT : Option String
  dhEmi : Option String
  xMunIni : Option String
  xMunFim : Option String
  xNome : Option String
  proPred : Option String
  xOutCat : Option String
  qCarga : Option String
  vTPrest : Option String
  xObs : Option String
deriving DecidableEq, Repr

/-- The dictionary returned on success by `extrair_dados_cte` (lines 210-221). -/
structure Registro where
  data : Option Date
  mes : String
  numero_cte : Option String
  transportador : Option String
  placa : String
  produto : Option String
  cidade_origem : Option String
  cidade_destino : Option String
  quantidade_litros : Option PyFloat
  valor_frete : Option PyFloat
deriving DecidableEq, Repr

/-- `float(x) if x else None` under the local `try`/`except` (lines 199-206). -/
def coerceNum (o : Option String) : Option PyFloat :=
  if truthy o then pyFloat? (o.getD "") else none

/-- `unidade and unidade.strip().upper() in ["LITRO", "LT", "LTS"]` (line 208). -/
def unidadeLitroB (o : Option String) : Bool :=
  truthy o && decide (pyUpper (pyStrip (o.getD "")) ∈ (["LITRO", "LT", "LTS"] : List String))

/-- The `placas` variable: `""` unless the observation text is truthy, in
which case the joined plate tokens (lines 192-197). -/
def placasOf (o : Option String) : String :=
  if truthy o then placasStr (o.getD "") else ""

/-- The date branch of `extrair_dados_cte` (lines 183-189): a falsy (missing
or empty) timestamp yields an absent date and empty month name; a truthy one
is parsed by `strptime` with NO local handler, so a parse failure (`none`)
raises into the function's outer `except` and fails the whole document. -/
def dataMes (f : ExtractedFields) : Option (Option Date × String) :=
  if truthy f.dhEmi then
    match parseDate ((f.dhEmi.getD "").take 10) with
    | some dt => some (some dt, mesName dt.month)
    | none => none
  else some (none, "")

/-- The body of `extrair_dados_cte` after the ten `findtext` calls.  The date
branch runs first; its raise returns `None` for the whole document. -/
def extrairNormaliza (f : ExtractedFields) : Option Registro :=
  match dataMes f with
  | none => none
  | some (dta, mes) =>
    some
      { data := dta
        mes := mes
        numero_cte := f.nCT
        transportador := f.xNome
        placa := placasOf f.xObs
        produto := f.proPred
        cidade_origem := f.xMunIni
        cidade_destino := f.xMunFim
        quantidade_litros := if unidadeLitroB f.xOutCat then coerceNum f.qCarga else none
        valor_frete := coerceNum f.vTPrest }

/-- `extrair_dados_cte` on one uploaded file.  The XML parse itself is the
embedding boundary: a malformed document is `none`, a well-formed one is
`some` of its field bag; the outer `try`/`except` turns any raise into a
`None` result. -/
def extrair_dados_cte (parsed : Option ExtractedFields) : Option Registro :=
  parsed.bind extrairNormaliza

/-- The upload ingestion loop (lines 314-322): extract each file in order,
append the successful records, skip the failures. -/
def processBatch : List (Option ExtractedFields) → List Registro
  | [] => []
  | d :: ds =>
    match extrair_dados_cte d with
    | some r => r :: processBatch ds
    | none => processBatch ds

/-! ## Tenant store (lines 50-73, 329-341, 360-366)

The table store is modelled as a partial map from table names to the ordered
list of appended rows; `none` is a table that does not exist. -/

/-- `is_valid_table_name` (lines 50-52): `bool(re.match(r"^[a-zA-Z0-9_]+$", name))`
with Python's `re` semantics, where `$` also matches just before a newline
that ends the string, so a name consisting of valid characters plus one
trailing newline is accepted. -/
def is_valid_table_name (name : String) : Bool :=
  let l := name.data
  let core := if l.getLast? = some '\n' then l.dropLast else l
  !core.isEmpty && core.all isWordChar

/-- The naming invariant as the spec states it: the whole identifier matches
`^[A-Za-z0-9_]+$`, i.e. it is nonempty and made only of ASCII letters,
digits and underscores.  Stated separately from `is_valid_table_name` to
compare the code against the spec's words. -/
def matchesNamingInvariant (name : String) : Bool :=
  !name.data.isEmpty && name.data.all isWordChar

/-- The table store: table name to appended rows, `none` if absent. -/
def DB : Type := String → Option (List Registro)

/-- `ensure_table_exists` (lines 54-73): validate the name, then
`CREATE TABLE IF NOT EXISTS` (an existing table is kept unchanged, a missing
one becomes empty); an invalid name raises `ValueError` before any store
operation. -/
def ensure_table_exists (tabela : String) (db : DB) : Except String DB :=
  if is_valid_table_name tabela then
    .ok fun t => if t = tabela then some ((db t).getD []) else db t
  else .error "Nome de tabela invalido. Use apenas letras, numeros e underscore."

/-- `df.to_sql(tabela, ..., if_exists="append")` (line 338): append the batch
rows, in order, after the existing rows. -/
def append_rows (tabela : String) (rows : List Registro) (db : DB) : DB :=
  fun t => if t = tabela then some ((db t).getD [] ++ rows) else db t

/-- The ingestion write path (lines 329-341): `ensure_table_exists` then the
append; a validation failure aborts before anything is written. -/
def ingest (tabela : String) (rows : List Registro) (db : DB) : Except String DB :=
  match ensure_table_exists tabela db with
  | .ok db1 => .ok (append_rows tabela rows db1)
  | .error e => .error e

/-- Sort key of `ORDER BY data DESC`: a missing date is largest (Postgres
`DESC` places `NULL`s first), a date is ordered by year, month, day. -/
def dval : Option Date → Nat
  | none => 100000000
  | some d => d.year * 10000 + d.month * 100 + d.day

/-- Row order produced by `ORDER BY data DESC`: `a` before `b` when `a`'s
date key is at least `b`'s. -/
def ordemDataDesc (a b : Registro) : Prop := dval b.data ≤ dval a.data

instance : DecidableRel ordemDataDesc := fun _ _ => Nat.decLe _ _

/-- `pd.read_sql(f"SELECT * FROM {tabela} ORDER BY data DESC", conn)`
(line 362): the stored rows reordered by descending date. -/
def loadTenant (tabela : String) (db : DB) : List Registro :=
  List.insertionSort ordemDataDesc ((db tabela).getD [])

/-! ## Consolidated ledger

Modelled from the spec: the repository file under `src/` contains only the
per-tenant write (`df.to_sql` append); the cross-tenant ConsolidatedLedger
and the `append_ledger` mirror write described in the spec (sections 3 and
4.5) appear in no code under `src/`, so they are modelled here from the
spec's words: an append-only list of records tagged with tenant identity,
written by the store's write path after the per-tenant append, whose
failure is surfaced but neither swallowed nor allowed to roll back the
per-tenant write. -/

/-- Store state with the spec's ConsolidatedLedger next to the tenant tables. -/
structure Store where
  tenants : DB
  ledger : List (String × Registro)

/-- Modelled from the spec: `append_ledger(tenant_id, records)` mirrors a
record batch into the ConsolidatedLedger with the tenant identity attached. -/
def append_ledger (tenant : String) (records : List Registro) (s : Store) : Store :=
  { s with ledger := s.ledger ++ records.map fun r => (tenant, r) }

/-- Modelled from the spec: the store's write path; `ledgerOk` is the oracle
for the ledger's independent failure domain.  The per-tenant append happens
first; a ledger failure is returned to the caller (`some` error) with the
per-tenant write left intact. -/
def write_batch (tenant : String) (records : List Registro) (ledgerOk : Bool) (s : Store) :
    Option String × Store :=
  let s1 : Store := { s with tenants := append_rows tenant records s.tenants }
  if ledgerOk then (none, append_ledger tenant records s1)
  else (some "falha ao gravar no ledger consolidado", s1)

/-! ## Dashboard group-by (line 390)

`df_banco.groupby("cidade_destino")["numero_cte"].count()` with pandas
defaults: rows whose group key is null are dropped, the remaining distinct
keys are sorted ascending, and `count()` counts the non-null `numero_cte`
values in each group. -/

/-- Lexicographic order on character lists by code point, the order Python
uses on `str` and hence pandas uses on object keys. -/
def lexLe : List Char → List Char → Bool
  | [], _ => true
  | _ :: _, [] => false
  | c :: cs, d :: ds =>
    if c.toNat < d.toNat then true
    else if d.toNat < c.toNat then false
    else lexLe cs ds

/-- String order used by the pandas group-key sort. -/
def strLe (a b : String) : Prop := lexLe a.data b.data = true

instance : DecidableRel strLe := fun _ _ => instDecidableEqBool _ _

/-- `viagens_cidade` (line 390): distinct non-null destination cities in
ascending order, each with the count of its rows having a non-null
document number. -/
def viagens_cidade (rows : List Registro) : List (String × Nat) :=
  let keys := (rows.filterMap fun r => r.cidade_destino).dedup
  (List.insertionSort strLe keys).map fun k =>
    (k, rows.countP fun r => decide (r.cidade_destino = some k) && r.numero_cte.isSome)

/-! ## Lemmas about the plate matcher -/

/-- The shape of a token matched by `[A-Z]{3}\d{1,4}[A-Z0-9]{0,3}`: three
uppercase letters, one to four digits, zero to three further characters
from `[A-Z0-9]`. -/
def PlateShape (t : List Char) : Prop :=
  ∃ a b c ds ks, t = a :: b :: c :: (ds ++ ks) ∧
    a.isUpper = true ∧ b.isUpper = true ∧ c.isUpper = true ∧
    (∀ x ∈ ds, x.isDigit = true) ∧ 1 ≤ ds.length ∧ ds.length ≤ 4 ∧
    (∀ x ∈ ks, isAlnumU x = true) ∧ ks.length ≤ 3

theorem isWordChar_of_isDigit {c : Char} (h : c.isDigit = true) : isWordChar c = true := by
  simp [isWordChar, Char.isAlphanum, h]

theorem isWordChar_of_isUpper {c : Char} (h : c.isUpper = true) : isWordChar c = true := by
  simp [isWordChar, Char.isAlphanum, Char.isAlpha, h]

theorem isWordChar_of_isAlnumU {c : Char} (h : isAlnumU c = true) : isWordChar c = true := by
  rcases Bool.or_eq_true_iff.mp h with h' | h'
  · exact isWordChar_of_isUpper h'
  · exact isWordChar_of_isDigit h'

theorem takeWhile_length_ge (p : Char → Bool) (xs ys : List Char)
    (h : ∀ x ∈ xs, p x = true) : xs.length ≤ ((xs ++ ys).takeWhile p).length := by
  induction xs with
  | nil => simp
  | cons x xs ih =>
    have hx : p x = true := h x (List.mem_cons_self x xs)
    simp only [List.cons_append, List.takeWhile_cons, hx, if_true, List.length_cons]
    exact Nat.succ_le_succ (ih fun a ha => h a (List.mem_cons_of_mem x ha))

theorem takeWhile_length_le (p : Char → Bool) :
    ∀ (l : List Char) (n : Nat) (c : Char) (cs : List Char),
      l.drop n = c :: cs → p c = false → (l.takeWhile p).length ≤ n := by
  intro l
  induction l with
  | nil => intro n c cs h; simp at h
  | cons x xs ih =>
    intro n c cs h hc
    cases n with
    | zero =>
      simp only [List.drop_zero] at h
      cases h
      simp [List.takeWhile_cons, hc]
    | succ n =>
      simp only [List.drop_succ_cons] at h
      have := ih n c cs h hc
      simp only [List.takeWhile_cons]
      cases hp : p x
      · simp
      · simpa using Nat.succ_le_succ this

theorem all_take_of_le_takeWhile (p : Char → Bool) :
    ∀ (l : List Char) (d : Nat), d ≤ (l.takeWhile p).length → ∀ x ∈ l.take d, p x = true := by
  intro l
  induction l with
  | nil => intro d _ x hx; simp at hx
  | cons y ys ih =>
    intro d hd x hx
    cases d with
    | zero => simp at hx
    | succ d =>
      cases hp : p y with
      | false => simp [List.takeWhile_cons, hp] at hd
      | true =>
        simp only [List.takeWhile_cons, hp, if_true, List.length_cons] at hd
        rcases List.mem_cons.mp (by simpa using hx) with h | h
        · exact h ▸ hp
        · exact ih d (Nat.le_of_succ_le_succ hd) x h

theorem kLoop_some (sd : List Char) :
    ∀ km k, kLoop sd km = some k → k ≤ km ∧ wordBreak (sd.drop k) = true := by
  intro km
  induction km with
  | zero =>
    intro k h
    simp only [kLoop] at h
    split at h
    · cases h; simpa using ‹wordBreak sd = true›
    · cases h
  | succ km ih =>
    intro k h
    simp only [kLoop] at h
    split at h
    · cases h; exact ⟨Nat.le_refl _, ‹_›⟩
    · have := ih k h
      exact ⟨Nat.le_succ_of_le this.1, this.2⟩

theorem kLoop_isSome (sd : List Char) :
    ∀ km j, j ≤ km → wordBreak (sd.drop j) = true → (kLoop sd km).isSome = true := by
  intro km
  induction km with
  | zero =>
    intro j hj hb
    have : j = 0 := Nat.le_zero.mp hj
    subst this
    simp only [List.drop_zero] at hb
    simp [kLoop, hb]
  | succ km ih =>
    intro j hj hb
    simp only [kLoop]
    split
    · rfl
    · rcases Nat.lt_or_ge j (km + 1) with h | h
      · exact ih j (Nat.le_of_lt_succ h) hb
      · have : j = km + 1 := Nat.le_antisymm hj h
        subst this
        simp_all

theorem dLoop_some (s3 : List Char) :
    ∀ dm d k, dLoop s3 dm = some (d, k) →
      1 ≤ d ∧ d ≤ dm ∧ k ≤ min 3 (((s3.drop d).takeWhile isAlnumU).length) ∧
        wordBreak (s3.drop (d + k)) = true := by
  intro dm
  induction dm with
  | zero => intro d k h; simp [dLoop] at h
  | succ dm ih =>
    intro d k h
    simp only [dLoop] at h
    split at h
    · rename_i k' hk
      cases h
      have := kLoop_some _ _ _ hk
      refine ⟨Nat.succ_le_succ (Nat.zero_le _), Nat.le_refl _, this.1, ?_⟩
      have hb := this.2
      rwa [List.drop_drop] at hb
    · have := ih d k h
      exact ⟨this.1, Nat.le_succ_of_le this.2.1, this.2.2⟩

theorem dLoop_isSome (s3 : List Char) :
    ∀ dm d j, 1 ≤ d → d ≤ dm → j ≤ min 3 (((s3.drop d).takeWhile isAlnumU).length) →
      wordBreak (s3.drop (d + j)) = true → (dLoop s3 dm).isSome = true := by
  intro dm
  induction dm with
  | zero => intro d j h1 h2 _ _; omega
  | succ dm ih =>
    intro d j h1 h2 h3 h4
    simp only [dLoop]
    split
    · rfl
    · rename_i hk
      rcases Nat.lt_or_ge d (dm + 1) with h | h
      · exact ih d j h1 (Nat.le_of_lt_succ h) h3 h4
      · have : d = dm + 1 := Nat.le_antisymm h2 h
        subst this
        have hb : wordBreak ((s3.drop (dm + 1)).drop j) = true := by
          rwa [List.drop_drop]
        have := kLoop_isSome (s3.drop (dm + 1)) _ j h3 hb
        rw [hk] at this
        simp at this

theorem tryBody_some {s tok rest : List Char} (h : tryBody s = some (tok, rest)) :
    s = tok ++ rest ∧ PlateShape tok ∧ wordBreak rest = true := by
  unfold tryBody at h
  split at h
  case h_2 => simp at h
  rename_i a b c tl
  split at h
  case isFalse => simp at h
  rename_i hup
  split at h
  case h_2 => simp at h
  rename_i d k hdl
  obtain ⟨⟨hua, hub⟩, huc⟩ : (a.isUpper = true ∧ b.isUpper = true) ∧ c.isUpper = true := by
    simpa [Bool.and_eq_true] using hup
  obtain ⟨htok, hrest⟩ : tok = a :: b :: c :: tl.take (d + k) ∧ rest = tl.drop (d + k) := by
    have := Option.some.inj h
    exact ⟨congrArg Prod.fst this.symm, congrArg Prod.snd this.symm⟩
  obtain ⟨hd1, hdm, hkle, hbrk⟩ := dLoop_some tl _ d k hdl
  have hd_le_dig : d ≤ (tl.takeWhile Char.isDigit).length := (Nat.le_min.mp hdm).2
  have hd4 : d ≤ 4 := (Nat.le_min.mp hdm).1
  have hk3 : k ≤ 3 := (Nat.le_min.mp hkle).1
  have hk_le_run : k ≤ ((tl.drop d).takeWhile isAlnumU).length := (Nat.le_min.mp hkle).2
  have hd_le_len : d ≤ tl.length :=
    le_trans hd_le_dig (List.takeWhile_sublist _ |>.length_le)
  refine ⟨?_, ?_, ?_⟩
  · rw [htok, hrest]; simp
  · refine ⟨a, b, c, tl.take d, (tl.drop d).take k, ?_, hua, hub, huc, ?_, ?_, ?_, ?_, ?_⟩
    · rw [htok, List.take_add]
    · exact all_take_of_le_takeWhile _ tl d hd_le_dig
    · simpa [Nat.min_eq_left hd_le_len] using hd1
    · simpa [Nat.min_eq_left hd_le_len] using hd4
    · exact all_take_of_le_takeWhile _ (tl.drop d) k hk_le_run
    · exact le_trans (List.length_take_le _ _) hk3
  · rw [hrest]; exact hbrk

theorem tryBody_complete {tok rest : List Char} (hs : PlateShape tok)
    (hbr : wordBreak rest = true) : tryBody (tok ++ rest) = some (tok, rest) := by
  obtain ⟨a, b, c, ds, ks, rfl, hua, hub, huc, hds, hds1, hds4, hks, hks3⟩ := hs
  have htl : (a :: b :: c :: (ds ++ ks)) ++ rest = a :: b :: c :: (ds ++ (ks ++ rest)) := by simp
  rw [htl]
  set tl := ds ++ (ks ++ rest) with htl_def
  set L := ds.length + ks.length with hL
  have htl2 : tl = (ds ++ ks) ++ rest := by simp [htl_def]
  have hdig_ge : ds.length ≤ (tl.takeWhile Char.isDigit).length :=
    takeWhile_length_ge _ ds (ks ++ rest) hds
  have hdrop_ds : tl.drop ds.length = ks ++ rest := List.drop_left ds (ks ++ rest)
  have halnum_ge : ks.length ≤ ((tl.drop ds.length).takeWhile isAlnumU).length := by
    rw [hdrop_ds]; exact takeWhile_length_ge _ ks rest hks
  have hdropL : tl.drop L = rest := by
    rw [htl2]; exact List.drop_left' (by simp [hL])
  have htakeL : tl.take L = ds ++ ks := by
    rw [htl2]; exact List.take_left' (by simp [hL])
  have hsome : (dLoop tl (min 4 ((tl.takeWhile Char.isDigit).length))).isSome = true := by
    apply dLoop_isSome tl _ ds.length ks.length hds1
    · exact Nat.le_min.mpr ⟨hds4, hdig_ge⟩
    · exact Nat.le_min.mpr ⟨hks3, halnum_ge⟩
    · rw [show ds.length + ks.length = L from rfl, hdropL]; exact hbr
  obtain ⟨⟨d, k⟩, hdl⟩ := Option.isSome_iff_exists.mp hsome
  obtain ⟨hd1, hdm, hkle, hbrk⟩ := dLoop_some tl _ d k hdl
  have hd_le_dig : d ≤ (tl.takeWhile Char.isDigit).length := (Nat.le_min.mp hdm).2
  have hk_le_run : k ≤ ((tl.drop d).takeWhile isAlnumU).length := (Nat.le_min.mp hkle).2
  have hdk : d + k = L := by
    have hle : d + k ≤ L := by
      cases hr : rest with
      | nil =>
        have h1 : (tl.takeWhile Char.isDigit).length ≤ tl.length :=
          (List.takeWhile_sublist _).length_le
        have h2 : ((tl.drop d).takeWhile isAlnumU).length ≤ (tl.drop d).length :=
          (List.takeWhile_sublist _).length_le
        have h3 : tl.length = L := by simp [htl_def, hL, hr]
        have h4 : (tl.drop d).length = tl.length - d := by simp
        omega
      | cons r rs =>
        have hw : isWordChar r = false := by
          have := hbr
          rw [hr] at this
          simpa [wordBreak] using this
        have hrd : r.isDigit = false := by
          cases hrdig : r.isDigit
          · rfl
          · exact absurd (isWordChar_of_isDigit hrdig) (by simp [hw])
        have hra : isAlnumU r = false := by
          cases hraln : isAlnumU r
          · rfl
          · exact absurd (isWordChar_of_isAlnumU hraln) (by simp [hw])
        have hdig_le : (tl.takeWhile Char.isDigit).length ≤ L :=
          takeWhile_length_le _ tl L r rs (by rw [hdropL, hr]) hrd
        have hd_le_L : d ≤ L := le_trans hd_le_dig hdig_le
        have hdrop2 : (tl.drop d).drop (L - d) = r :: rs := by
          rw [List.drop_drop, show d + (L - d) = L from by omega, hdropL, hr]
        have hrun_le : ((tl.drop d).takeWhile isAlnumU).length ≤ L - d :=
          takeWhile_length_le _ (tl.drop d) (L - d) r rs hdrop2 hra
        omega
    rcases Nat.lt_or_ge (d + k) L with hlt | hge
    · exfalso
      have hlen : (ds ++ ks).length = L := by simp [hL]
      have hidx : d + k < (ds ++ ks).length := by omega
      have hlt2 : d + k < ((ds ++ ks) ++ rest).length := by simp; omega
      have hget : tl.drop (d + k) = ((ds ++ ks) ++ rest)[d + k] :: tl.drop (d + k + 1) := by
        rw [htl2]
        exact List.drop_eq_getElem_cons hlt2
      have hgeteq : ((ds ++ ks) ++ rest)[d + k] = (ds ++ ks)[d + k] :=
        List.getElem_append_left hidx
      have hmem : (ds ++ ks)[d + k] ∈ ds ++ ks := List.getElem_mem hidx
      have hword : isWordChar ((ds ++ ks)[d + k]) = true := by
        rcases List.mem_append.mp hmem with h | h
        · exact isWordChar_of_isDigit (hds _ h)
        · exact isWordChar_of_isAlnumU (hks _ h)
      rw [hget, hgeteq] at hbrk
      simp [wordBreak, hword] at hbrk
    · omega
  simp only [tryBody, hua, hub, huc, Bool.and_self, if_true]
  rw [hdl]
  show some (a :: b :: c :: tl.take (d + k), tl.drop (d + k)) = some (a :: b :: c :: (ds ++ ks), rest)
  rw [hdk, hdropL, htakeL]

theorem plateShape_length {tok : List Char} (h : PlateShape tok) : 4 ≤ tok.length := by
  obtain ⟨a, b, c, ds, ks, rfl, -, -, -, -, h1, -⟩ := h
  simp
  omega

theorem tryBody_some_length {s tok rest : List Char} (h : tryBody s = some (tok, rest)) :
    rest.length + 4 ≤ s.length := by
  obtain ⟨hseq, hshape, -⟩ := tryBody_some h
  have h4 := plateShape_length hshape
  have := congrArg List.length hseq
  simp at this
  omega

theorem scanF_congr : ∀ (f1 f2 : Nat) (p : Bool) (l : List Char),
    l.length ≤ f1 → l.length ≤ f2 → scanF f1 p l = scanF f2 p l := by
  intro f1
  induction f1 with
  | zero =>
    intro f2 p l h1 h2
    have : l = [] := List.length_eq_zero.mp (Nat.le_zero.mp h1)
    subst this
    cases f2 <;> simp [scanF]
  | succ f1 ih =>
    intro f2 p l h1 h2
    cases l with
    | nil => cases f2 <;> simp [scanF]
    | cons c cs =>
      cases f2 with
      | zero => simp at h2
      | succ f2 =>
        have hcs1 : cs.length ≤ f1 := by simpa using h1
        have hcs2 : cs.length ≤ f2 := by simpa using h2
        simp only [scanF]
        cases p with
        | true => simp [ih f2 _ cs hcs1 hcs2]
        | false =>
          cases htb : tryBody (c :: cs) with
          | none => simp [ih f2 _ cs hcs1 hcs2]
          | some pr =>
            obtain ⟨tok, rest⟩ := pr
            have hlen := tryBody_some_length htb
            simp only [List.length_cons] at hlen
            have hr1 : rest.length ≤ f1 := by omega
            have hr2 : rest.length ≤ f2 := by omega
            simp [ih f2 true rest hr1 hr2]

theorem scan_cons (p : Bool) (c : Char) (cs : List Char) :
    scan p (c :: cs) =
      if p then scan (isWordChar c) cs
      else
        match tryBody (c :: cs) with
        | some (tok, rest) => tok :: scan true rest
        | none => scan (isWordChar c) cs := by
  show scanF (cs.length + 1) p (c :: cs) = _
  simp only [scanF]
  cases p with
  | true => rfl
  | false =>
    cases htb : tryBody (c :: cs) with
    | none => rfl
    | some pr =>
      obtain ⟨tok, rest⟩ := pr
      have hlen := tryBody_some_length htb
      simp only [List.length_cons] at hlen
      show tok :: scanF cs.length true rest = tok :: scan true rest
      congr 1
      exact scanF_congr cs.length rest.length true rest (by omega) (Nat.le_refl _)

theorem scan_shape : ∀ (n : Nat) (p : Bool) (l : List Char), l.length ≤ n →
    ∀ t ∈ scan p l, PlateShape t := by
  intro n
  induction n with
  | zero =>
    intro p l h t ht
    have : l = [] := List.length_eq_zero.mp (Nat.le_zero.mp h)
    subst this
    simp [scan, scanF] at ht
  | succ n ih =>
    intro p l h t ht
    cases l with
    | nil => simp [scan, scanF] at ht
    | cons c cs =>
      rw [scan_cons] at ht
      have hcs : cs.length ≤ n := by simpa using h
      cases p with
      | true =>
        rw [if_pos rfl] at ht
        exact ih _ cs hcs t ht
      | false =>
        rw [if_neg (by simp)] at ht
        cases htb : tryBody (c :: cs) with
        | none =>
          rw [htb] at ht
          exact ih _ cs hcs t ht
        | some pr =>
          obtain ⟨tok, rest⟩ := pr
          rw [htb] at ht
          rcases List.mem_cons.mp ht with h' | h'
          · exact h' ▸ (tryBody_some htb).2.1
          · have hlen := tryBody_some_length htb
            simp only [List.length_cons] at hlen
            exact ih true rest (by omega) t h'

theorem scan_boundary : ∀ (n : Nat) (p : Bool) (l : List Char), l.length ≤ n →
    ∀ t ∈ scan p l, ∃ pre post, l = pre ++ t ++ post ∧
      ((pre = [] ∧ p = false) ∨ ∃ pre' c', pre = pre' ++ [c'] ∧ isWordChar c' = false) ∧
      wordBreak post = true := by
  intro n
  induction n with
  | zero =>
    intro p l h t ht
    have : l = [] := List.length_eq_zero.mp (Nat.le_zero.mp h)
    subst this
    simp [scan, scanF] at ht
  | succ n ih =>
    intro p l h t ht
    cases l with
    | nil => simp [scan, scanF] at ht
    | cons c cs =>
      rw [scan_cons] at ht
      have hcs : cs.length ≤ n := by simpa using h
      have skip : t ∈ scan (isWordChar c) cs →
          ∃ pre post, c :: cs = pre ++ t ++ post ∧
            ((pre = [] ∧ p = false) ∨ ∃ pre' c', pre = pre' ++ [c'] ∧ isWordChar c' = false) ∧
            wordBreak post = true := by
        intro ht'
        obtain ⟨pre, post, heq, hpre, hpost⟩ := ih (isWordChar c) cs hcs t ht'
        refine ⟨c :: pre, post, by simp [heq], ?_, hpost⟩
        right
        rcases hpre with ⟨rfl, hpw⟩ | ⟨pre', c', rfl, hc'⟩
        · exact ⟨[], c, by simp, hpw⟩
        · exact ⟨c :: pre', c', by simp, hc'⟩
      cases p with
      | true =>
        rw [if_pos rfl] at ht
        exact skip ht
      | false =>
        rw [if_neg (by simp)] at ht
        cases htb : tryBody (c :: cs) with
        | none =>
          rw [htb] at ht
          exact skip ht
        | some pr =>
          obtain ⟨tok, rest⟩ := pr
          rw [htb] at ht
          obtain ⟨hseq, hshape, hbrk⟩ := tryBody_some htb
          rcases List.mem_cons.mp ht with h' | h'
          · subst h'
            exact ⟨[], rest, by simpa using hseq, Or.inl ⟨rfl, rfl⟩, hbrk⟩
          · have hlen := tryBody_some_length htb
            simp only [List.length_cons] at hlen
            obtain ⟨pre, post, heq, hpre, hpost⟩ := ih true rest (by omega) t h'
            have htok4 := plateShape_length hshape
            have htokne : tok ≠ [] := by
              intro hc
              rw [hc] at htok4
              simp at htok4
            refine ⟨tok ++ pre, post, by simp [hseq, heq], ?_, hpost⟩
            right
            rcases hpre with ⟨rfl, hpw⟩ | ⟨pre', c', rfl, hc'⟩
            · simp at hpw
            · exact ⟨tok ++ pre', c', by simp, hc'⟩

theorem scan_join : ∀ ts : List (List Char), (∀ t ∈ ts, PlateShape t) →
    scan false (joinTok ts) = ts := by
  intro ts
  induction ts with
  | nil => intro _; rfl
  | cons t us ih =>
    intro hall
    have hst : PlateShape t := hall t (List.mem_cons_self t us)
    have ht4 : 4 ≤ t.length := plateShape_length hst
    cases t with
    | nil => simp at ht4
    | cons a t' =>
      cases us with
      | nil =>
        show scan false (joinTok [a :: t']) = [a :: t']
        have hjt : joinTok [a :: t'] = a :: t' := rfl
        rw [hjt]
        have hc : tryBody ((a :: t') ++ []) = some (a :: t', []) := tryBody_complete hst rfl
        rw [List.append_nil] at hc
        rw [scan_cons, if_neg (by simp), hc]
        rfl
      | cons u vs =>
        show scan false ((a :: t') ++ ' ' :: joinTok (u :: vs)) = (a :: t') :: u :: vs
        have hbrk : wordBreak (' ' :: joinTok (u :: vs)) = true := rfl
        have hc : tryBody ((a :: t') ++ ' ' :: joinTok (u :: vs)) =
            some (a :: t', ' ' :: joinTok (u :: vs)) := tryBody_complete hst hbrk
        rw [show (a :: t') ++ ' ' :: joinTok (u :: vs) =
          a :: (t' ++ ' ' :: joinTok (u :: vs)) from by simp] at hc ⊢
        rw [scan_cons, if_neg (by simp), hc]
        show (a :: t') :: scan true (' ' :: joinTok (u :: vs)) = (a :: t') :: u :: vs
        congr 1
        rw [scan_cons, if_pos rfl]
        rw [show isWordChar ' ' = false from rfl]
        exact ih fun x hx => hall x (List.mem_cons_of_mem (a :: t') hx)

/-! ## Order lemmas for the string sort of the group-by -/

theorem lexLe_total : ∀ a b : List Char, lexLe a b = true ∨ lexLe b a = true := by
  intro a
  induction a with
  | nil => intro b; left; rfl
  | cons c cs ih =>
    intro b
    cases b with
    | nil => right; rfl
    | cons d ds =>
      by_cases h1 : c.toNat < d.toNat
      · left; simp [lexLe, h1]
      · by_cases h2 : d.toNat < c.toNat
        · right; simp [lexLe, h2]
        · rcases ih ds with h | h
          · left; simp [lexLe, h1, h2, h]
          · right; simp [lexLe, h1, h2, h]

theorem lexLe_trans : ∀ a b c : List Char,
    lexLe a b = true → lexLe b c = true → lexLe a c = true := by
  intro a
  induction a with
  | nil => intro b c _ _; rfl
  | cons x xs ih =>
    intro b c hab hbc
    cases b with
    | nil => simp [lexLe] at hab
    | cons y ys =>
      cases c with
      | nil => simp [lexLe] at hbc
      | cons z zs =>
        by_cases hxy : x.toNat < y.toNat
        · by_cases hyz : y.toNat < z.toNat
          · simp [lexLe, show x.toNat < z.toNat from by omega]
          · by_cases hzy : z.toNat < y.toNat
            · simp [lexLe, hyz, hzy] at hbc
            · simp [lexLe, show x.toNat < z.toNat from by omega]
        · by_cases hyx : y.toNat < x.toNat
          · simp [lexLe, hxy, hyx] at hab
          · by_cases hyz : y.toNat < z.toNat
            · simp [lexLe, show x.toNat < z.toNat from by omega]
            · by_cases hzy : z.toNat < y.toNat
              · simp [lexLe, hyz, hzy] at hbc
              · have g1 : ¬x.toNat < z.toNat := by omega
                have g2 : ¬z.toNat < x.toNat := by omega
                simp only [lexLe, hxy, hyx, if_false] at hab
                simp only [lexLe, hyz, hzy, if_false] at hbc
                simp only [lexLe, g1, g2, if_false]
                exact ih ys zs hab hbc

instance : IsTotal String strLe :=
  ⟨fun a b => by
    rcases lexLe_total a.data b.data with h | h
    · exact Or.inl h
    · exact Or.inr h⟩

instance : IsTrans String strLe :=
  ⟨fun a b c hab hbc => lexLe_trans a.data b.data c.data hab hbc⟩

instance : IsTotal Registro ordemDataDesc :=
  ⟨fun a b => Nat.le_total (dval b.data) (dval a.data)⟩

instance : IsTrans Registro ordemDataDesc :=
  ⟨fun _ _ _ hab hbc => Nat.le_trans hbc hab⟩

/-! ## Field projection lemma for the extraction -/

theorem extrairNormaliza_fields {f : ExtractedFields} {r : Registro}
    (h : extrairNormaliza f = some r) :
    r.numero_cte = f.nCT ∧ r.transportador = f.xNome ∧ r.placa = placasOf f.xObs ∧
    r.produto = f.proPred ∧ r.cidade_origem = f.xMunIni ∧ r.cidade_destino = f.xMunFim ∧
    r.quantidade_litros = (if unidadeLitroB f.xOutCat then coerceNum f.qCarga else none) ∧
    r.valor_frete = coerceNum f.vTPrest := by
  unfold extrairNormaliza at h
  cases hdm : dataMes f with
  | none => rw [hdm] at h; cases h
  | some dm =>
    obtain ⟨dta, mes⟩ := dm
    rw [hdm] at h
    cases h
    exact ⟨rfl, rfl, rfl, rfl, rfl, rfl, rfl, rfl⟩

/-- Truth of the date branch: the document does not fail on its timestamp. -/
def dateOKb (f : ExtractedFields) : Bool := (dataMes f).isSome

/-! ## Concrete sample data used by witnesses and counterexamples -/

def regA : Registro :=
  ⟨some ⟨2024, 1, 1⟩, "January", some "77", none, "", none, none, some "Santos", none, none⟩

def regB : Registro :=
  ⟨some ⟨2024, 2, 1⟩, "February", some "78", none, "", none, none, some "Campinas", none, none⟩

def regC : Registro :=
  ⟨some ⟨2024, 2, 1⟩, "February", none, none, "", none, none, some "Campinas", none, none⟩

def fldNoDate : ExtractedFields :=
  ⟨some "77", none, some "Origem", some "Destino", some "Transp", some "Areia", some "KG",
    some "10", none, none⟩

def fldBadDate : ExtractedFields :=
  ⟨some "77", some "2024-xx-01T00:00:00", some "Origem", some "Destino", some "Transp",
    some "Areia", some "KG", some "10", some "100", none⟩

def fldLitro : ExtractedFields :=
  ⟨some "77", none, none, none, none, some "Diesel", some "Lts", some "20", some "30", none⟩

def fldBadFrete : ExtractedFields :=
  ⟨some "77", none, none, none, none, some "Diesel", some "Lts", some "xq", some "abc", none⟩

def st0 : Store := ⟨fun _ => none, []⟩

/-! ## The claims -/

/-- C1, counterexample to the claim as stated: a well-formed document (its
field bag exists) whose emission timestamp is present but malformed makes
the whole extraction call fail (`extrair_dados_cte` returns no record),
where the claim asserts the call succeeds with an absent `issue_date`. -/
theorem claim_C1_cex :
    truthy fldBadDate.dhEmi = true ∧
    parseDate ((fldBadDate.dhEmi.getD "").take 10) = none ∧
    extrair_dados_cte (some fldBadDate) = none := by decide

/-- C1 as amended: when the emission timestamp is absent or empty, extraction
succeeds with an absent `issue_date`, empty `issue_month_name`, and every
other field extracted normally; but when the timestamp is present and
malformed, the `strptime` exception escapes to the outer handler and the
whole extraction call fails, the same signal as malformed XML. -/
theorem claim_C1 (f : ExtractedFields) :
    (truthy f.dhEmi = false →
      ∃ r, extrairNormaliza f = some r ∧ r.data = none ∧ r.mes = "" ∧
        r.numero_cte = f.nCT ∧ r.transportador = f.xNome ∧ r.produto = f.proPred ∧
        r.cidade_origem = f.xMunIni ∧ r.cidade_destino = f.xMunFim ∧
        r.placa = placasOf f.xObs ∧
        r.quantidade_litros = (if unidadeLitroB f.xOutCat then coerceNum f.qCarga else none) ∧
        r.valor_frete = coerceNum f.vTPrest) ∧
    (truthy f.dhEmi = true → parseDate ((f.dhEmi.getD "").take 10) = none →
      extrairNormaliza f = none) := by
  constructor
  · intro ht
    have hdm : dataMes f = some (none, "") := by simp [dataMes, ht]
    refine ⟨⟨none, "", f.nCT, f.xNome, placasOf f.xObs, f.proPred, f.xMunIni, f.xMunFim,
      if unidadeLitroB f.xOutCat then coerceNum f.qCarga else none, coerceNum f.vTPrest⟩,
      ?_, rfl, rfl, rfl, rfl, rfl, rfl, rfl, rfl, rfl, rfl⟩
    unfold extrairNormaliza
    rw [hdm]
  · intro ht hp
    have hdm : dataMes f = none := by simp [dataMes, ht, hp]
    unfold extrairNormaliza
    rw [hdm]

/-- C3: the store's write path mirrors every per-tenant append into the
ConsolidatedLedger tagged with the tenant identity; a ledger failure is
surfaced to the caller (a `some` error), never swallowed, and never rolls
back the per-tenant append that already happened. -/
theorem claim_C3 (t : String) (rs : List Registro) (ok : Bool) (s : Store) :
    ((write_batch t rs ok s).2.tenants t = some ((s.tenants t).getD [] ++ rs)) ∧
    (ok = true → (write_batch t rs ok s).1 = none ∧
      (write_batch t rs ok s).2.ledger = s.ledger ++ rs.map fun r => (t, r)) ∧
    (ok = false → ((write_batch t rs ok s).1).isSome = true ∧
      (write_batch t rs ok s).2.ledger = s.ledger) := by
  cases ok <;> simp [write_batch, append_ledger, append_rows]

/-- C3 witness: the write path evaluated at a concrete tenant, record and
store, in both ledger outcomes. -/
theorem claim_C3_witness :
    ((write_batch "cte_a" [regA] true st0).1 = none ∧
      (write_batch "cte_a" [regA] true st0).2.ledger = st0.ledger ++ [regA].map fun r => ("cte_a", r)) ∧
    (((write_batch "cte_a" [regA] false st0).1).isSome = true ∧
      (write_batch "cte_a" [regA] false st0).2.ledger = st0.ledger) :=
  ⟨(claim_C3 "cte_a" [regA] true st0).2.1 rfl, (claim_C3 "cte_a" [regA] false st0).2.2 rfl⟩

/-- C4: `volume_liters` is present exactly when the declared unit text,
trimmed and upper-cased, is one of LITRO/LT/LTS and the declared quantity
coerced to a number; its value is that quantity; for an absent or non-litre
unit it is absent regardless of the quantity. -/
theorem claim_C4 (f : ExtractedFields) (r : Registro) (h : extrairNormaliza f = some r) :
    (∀ v, r.quantidade_litros = some v ↔
      (unidadeLitroB f.xOutCat = true ∧ coerceNum f.qCarga = some v)) ∧
    (unidadeLitroB f.xOutCat = false → r.quantidade_litros = none) := by
  have hq := (extrairNormaliza_fields h).2.2.2.2.2.2.1
  constructor
  · intro v
    constructor
    · intro hv
      rw [hq] at hv
      by_cases hu : unidadeLitroB f.xOutCat = true
      · rw [if_pos hu] at hv
        exact ⟨hu, hv⟩
      · rw [if_neg hu] at hv
        cases hv
    · rintro ⟨hu, hc⟩
      rw [hq, if_pos hu]
      exact hc
  · intro hu
    rw [hq, if_neg (by simp [hu])]

/-- C4 witness: a concrete litre-unit document, hypotheses discharged by
evaluation. -/
theorem claim_C4_witness :
    (∀ v, (Registro.mk none "" (some "77") none "" (some "Diesel") none none
        (some (PyFloat.finite 20 1)) (some (PyFloat.finite 30 1))).quantidade_litros = some v ↔
      (unidadeLitroB fldLitro.xOutCat = true ∧ coerceNum fldLitro.qCarga = some v)) ∧
    (unidadeLitroB fldLitro.xOutCat = false →
      (Registro.mk none "" (some "77") none "" (some "Diesel") none none
        (some (PyFloat.finite 20 1)) (some (PyFloat.finite 30 1))).quantidade_litros = none) :=
  claim_C4 fldLitro
    (Registro.mk none "" (some "77") none "" (some "Diesel") none none
      (some (PyFloat.finite 20 1)) (some (PyFloat.finite 30 1))) (by decide)

/-- C6: the code accepts the tenant identifier made of valid characters plus
a trailing newline: Python's `$` matches before a final newline, so
`is_valid_table_name` returns `True` for `"abc\n"` although it violates the
naming invariant `^[A-Za-z0-9_]+$` that the code's own comment states
("aceita apenas letras, numeros e underscore"), and `ensure_table_exists`
then creates the table instead of failing. -/
theorem claim_C6_eval :
    matchesNamingInvariant "abc\n" = false ∧
    is_valid_table_name "abc\n" = true ∧
    ∃ db1, ensure_table_exists "abc\n" (fun _ => none) = .ok db1 ∧ db1 "abc\n" = some [] := by
  refine ⟨by decide, by decide, _, rfl, by decide⟩

/-- C7: the ingestion loop emits exactly one record per successfully parsed
document, in input order (it is `filterMap` of the per-document extraction),
and a single failing document is simply skipped: it never affects the other
documents nor fails the batch. -/
theorem claim_C7 (docs xs ys : List (Option ExtractedFields)) (bad : Option ExtractedFields)
    (hbad : extrair_dados_cte bad = none) :
    processBatch docs = docs.filterMap extrair_dados_cte ∧
    (processBatch docs).length = docs.countP (fun d => (extrair_dados_cte d).isSome) ∧
    processBatch (xs ++ bad :: ys) = processBatch (xs ++ ys) := by
  have hfm : ∀ ds : List (Option ExtractedFields),
      processBatch ds = ds.filterMap extrair_dados_cte := by
    intro ds
    induction ds with
    | nil => rfl
    | cons d ds ih =>
      simp only [processBatch, List.filterMap_cons]
      cases hd : extrair_dados_cte d <;> simp [hd, ih]
  refine ⟨hfm docs, ?_, ?_⟩
  · rw [hfm]
    induction docs with
    | nil => rfl
    | cons d ds ih =>
      cases hd : extrair_dados_cte d <;>
        simp [List.filterMap_cons, hd, List.countP_cons, ih]
  · rw [hfm, hfm, List.filterMap_append, List.filterMap_append, List.filterMap_cons, hbad]

/-- C7 witness: a batch with one good and one unparseable document equals the
batch without the bad document. -/
theorem claim_C7_witness :
    processBatch [some fldNoDate, none] = processBatch [some fldNoDate] :=
  (claim_C7 [some fldNoDate, none] [some fldNoDate] [] none rfl).2.2

/-- C8: numeric coercion of the quantity and the freight value never fails a
document whose date branch succeeded; the freight field is exactly the
coercion of its raw text, the litre volume is the coercion of the quantity
when the unit is litre-like; and the coercion maps an absent text to an
absent value and a present text to its parse result (absent exactly when
unparsable or empty). -/
theorem claim_C8 (f : ExtractedFields) (h : dateOKb f = true) :
    (∃ r, extrairNormaliza f = some r ∧ r.valor_frete = coerceNum f.vTPrest ∧
      (unidadeLitroB f.xOutCat = true → r.quantidade_litros = coerceNum f.qCarga)) ∧
    coerceNum none = none ∧ pyFloat? "" = none ∧
    (∀ s, coerceNum (some s) = pyFloat? s) := by
  refine ⟨?_, rfl, rfl, ?_⟩
  · unfold dateOKb at h
    obtain ⟨dm, hdm⟩ := Option.isSome_iff_exists.mp h
    obtain ⟨dta, mes⟩ := dm
    refine ⟨⟨dta, mes, f.nCT, f.xNome, placasOf f.xObs, f.proPred, f.xMunIni, f.xMunFim,
      if unidadeLitroB f.xOutCat then coerceNum f.qCarga else none, coerceNum f.vTPrest⟩,
      ?_, rfl, ?_⟩
    · unfold extrairNormaliza
      rw [hdm]
    · intro hu
      simp [hu]
  · intro s
    by_cases hs : s = ""
    · subst hs
      rfl
    · simp [coerceNum, truthy, hs]

/-- C8 witness: a concrete document with unparsable freight text still
extracts, with an absent freight value. -/
theorem claim_C8_witness :
    (∃ r, extrairNormaliza fldBadFrete = some r ∧ r.valor_frete = coerceNum fldBadFrete.vTPrest ∧
      (unidadeLitroB fldBadFrete.xOutCat = true →
        r.quantidade_litros = coerceNum fldBadFrete.qCarga)) ∧
    coerceNum none = none ∧ pyFloat? "" = none ∧
    (∀ s, coerceNum (some s) = pyFloat? s) :=
  claim_C8 fldBadFrete (by decide)

/-- C2, counterexample to the claim as stated: ingesting the two-record batch
`[regA, regB]` (January then February) into a fresh tenant table and loading
the tenant yields `[regB, regA]` — the dashboard query orders by issue date
descending, not by original batch order. -/
theorem claim_C2_cex :
    (ingest "cte_test" [regA, regB] fun _ => none).toOption.map (loadTenant "cte_test") =
      some [regB, regA] ∧
    ([regB, regA] : List Registro) ≠ [regA, regB] := by decide

/-- C2 as amended: ingesting a batch of N records into a fresh tenant table
and loading that tenant yields exactly N records, field-for-field the
batch's records (a permutation), but ordered by issue date descending
(nulls first), not in original batch order. -/
theorem claim_C2 (tabela : String) (batch : List Registro) (db : DB)
    (hval : is_valid_table_name tabela = true) (hfresh : db tabela = none) :
    ∃ db1, ingest tabela batch db = .ok db1 ∧
      (loadTenant tabela db1).length = batch.length ∧
      (loadTenant tabela db1).Perm batch ∧
      List.Sorted ordemDataDesc (loadTenant tabela db1) := by
  have hens : ensure_table_exists tabela db =
      .ok (fun t => if t = tabela then some ((db t).getD []) else db t) := by
    unfold ensure_table_exists
    rw [if_pos hval]
  have hload : loadTenant tabela (append_rows tabela batch
      (fun t => if t = tabela then some ((db t).getD []) else db t)) =
      List.insertionSort ordemDataDesc batch := by
    unfold loadTenant append_rows
    simp [hfresh]
  refine ⟨append_rows tabela batch (fun t => if t = tabela then some ((db t).getD []) else db t),
    ?_, ?_, ?_, ?_⟩
  · unfold ingest
    rw [hens]
  · rw [hload]
    exact (List.perm_insertionSort _ _).length_eq
  · rw [hload]
    exact List.perm_insertionSort _ _
  · rw [hload]
    exact List.sorted_insertionSort _ _

/-- C2 witness: the amended round trip evaluated at a concrete batch and a
concrete fresh store. -/
theorem claim_C2_witness :
    ∃ db1, ingest "cte_test" [regA, regB] (fun _ => none) = .ok db1 ∧
      (loadTenant "cte_test" db1).length = ([regA, regB] : List Registro).length ∧
      (loadTenant "cte_test" db1).Perm [regA, regB] ∧
      List.Sorted ordemDataDesc (loadTenant "cte_test" db1) :=
  claim_C2 "cte_test" [regA, regB] (fun _ => none) (by decide) rfl

/-- C5, counterexample to the claim as stated: over `[regA, regC]` (first a
Santos trip with a document number, then a Campinas trip whose document
number is absent) the group-by returns `[("Campinas", 0), ("Santos", 1)]`:
keys sorted ascending rather than in first-occurrence order, and the
Campinas row is not counted because `count()` only counts non-null
`numero_cte` — the claim predicts `[("Santos", 1), ("Campinas", 1)]`. -/
theorem claim_C5_cex :
    viagens_cidade [regA, regC] = [("Campinas", 0), ("Santos", 1)] ∧
    viagens_cidade [regA, regC] ≠ [("Santos", 1), ("Campinas", 1)] := by decide

/-- C5 as amended: `group_count` maps each distinct present destination city
to the number of its records whose document number is present, listed in
ascending city order (pandas sorts group keys; insertion order is not kept),
with no duplicate keys. -/
theorem claim_C5 (rows : List Registro) :
    (∀ k n, (k, n) ∈ viagens_cidade rows →
      (∃ r ∈ rows, r.cidade_destino = some k) ∧
      n = rows.countP fun r => decide (r.cidade_destino = some k) && r.numero_cte.isSome) ∧
    (∀ k, (∃ r ∈ rows, r.cidade_destino = some k) → ∃ n, (k, n) ∈ viagens_cidade rows) ∧
    List.Sorted strLe ((viagens_cidade rows).map Prod.fst) ∧
    ((viagens_cidade rows).map Prod.fst).Nodup := by
  have hkeys : (viagens_cidade rows).map Prod.fst =
      List.insertionSort strLe (rows.filterMap fun r => r.cidade_destino).dedup := by
    unfold viagens_cidade
    rw [List.map_map]
    exact List.map_id _
  have hmem : ∀ k,
      (k ∈ List.insertionSort strLe (rows.filterMap fun r => r.cidade_destino).dedup) ↔
      (∃ r ∈ rows, r.cidade_destino = some k) := by
    intro k
    rw [(List.perm_insertionSort _ _).mem_iff, List.mem_dedup, List.mem_filterMap]
  refine ⟨?_, ?_, ?_, ?_⟩
  · intro k n hkn
    unfold viagens_cidade at hkn
    obtain ⟨k', hk', heq⟩ := List.mem_map.mp hkn
    have h1 : k' = k := congrArg Prod.fst heq
    have h2 : (rows.countP fun r => decide (r.cidade_destino = some k') && r.numero_cte.isSome)
        = n := congrArg Prod.snd heq
    subst h1
    exact ⟨(hmem k').mp hk', h2.symm⟩
  · intro k hk
    refine ⟨rows.countP fun r => decide (r.cidade_destino = some k) && r.numero_cte.isSome, ?_⟩
    unfold viagens_cidade
    exact List.mem_map.mpr ⟨k, (hmem k).mpr hk, rfl⟩
  · rw [hkeys]
    exact List.sorted_insertionSort _ _
  · rw [hkeys]
    exact ((List.perm_insertionSort _ _).nodup_iff).mpr (List.nodup_dedup _)

/-- C5 witness: the amended group-by facts evaluated at a concrete record
set. -/
theorem claim_C5_witness :
    ((∃ r ∈ [regA, regC], r.cidade_destino = some "Santos") ∧
      1 = ([regA, regC] : List Registro).countP fun r =>
        decide (r.cidade_destino = some "Santos") && r.numero_cte.isSome) ∧
    List.Sorted strLe ((viagens_cidade [regA, regC]).map Prod.fst) :=
  ⟨(claim_C5 [regA, regC]).1 "Santos" 1 (by decide), (claim_C5 [regA, regC]).2.2.1⟩

/-- C9: every token the plate extractor returns has the plate shape (three
uppercase letters, one to four digits, zero to three further characters from
`[A-Z0-9]`), and the extraction is textually idempotent: running the same
pattern match over the space-joined plate string reproduces exactly the same
token sequence. -/
theorem claim_C9 (s : String) :
    (∀ t ∈ findPlateTokens s, PlateShape t) ∧
    findPlateTokens (placasStr s) = findPlateTokens s := by
  have hshape : ∀ t ∈ findPlateTokens s, PlateShape t :=
    fun t ht => scan_shape s.data.length false s.data (Nat.le_refl _) t ht
  refine ⟨hshape, ?_⟩
  show scan false (joinTok (findPlateTokens s)) = findPlateTokens s
  exact scan_join (findPlateTokens s) hshape

/-- C10: every token the plate extractor returns is delimited on both sides
by a word boundary of the observation text (the character before it, if any,
and after it, if any, is a non-word character), and a plate-shaped prefix
embedded in a longer alphanumeric run matches nothing: three uppercase
letters followed by eight digits produce no match at all. -/
theorem claim_C10 :
    (∀ (s : String) (t : List Char), t ∈ findPlateTokens s →
      ∃ pre post, s.data = pre ++ t ++ post ∧
        (pre = [] ∨ ∃ pre' c', pre = pre' ++ [c'] ∧ isWordChar c' = false) ∧
        wordBreak post = true) ∧
    findPlateTokens "ABC12345678" = [] := by
  constructor
  · intro s t ht
    obtain ⟨pre, post, heq, hpre, hpost⟩ :=
      scan_boundary s.data.length false s.data (Nat.le_refl _) t ht
    refine ⟨pre, post, heq, ?_, hpost⟩
    rcases hpre with ⟨rfl, -⟩ | h
    · exact Or.inl rfl
    · exact Or.inr h
  · decide

end CteApp
